import Mathlib

/-!
Shallow embedding of the markdown chunking, lexical relevance scoring and
knowledge-base search pipeline of the KnowledgeBaseAgent repository
(`src/mastra/tools/markdown-reader-tool.ts` and the GitHub RAG search /
vector RAG tools).  JavaScript strings are modelled as `List Char`;
the fallible construction `new RegExp(query, "g")` is modelled as an
`Option`-returning scorer.  All definitions are executable.
-/

set_option maxRecDepth 8192

namespace KB

/-- JavaScript strings, modelled as lists of characters. -/
abbrev Str := List Char

/-- The whitespace characters relevant to these sources (the ASCII subset of
the class trimmed by JavaScript `String.prototype.trim` and matched by the
regex class `\s`). -/
def isWs (c : Char) : Bool :=
  c == ' ' || c == '\t' || c == '\n' || c == '\r'

/-- JavaScript `String.prototype.trim`: drop whitespace from both ends. -/
def trim (s : Str) : Str :=
  ((s.dropWhile isWs).reverse.dropWhile isWs).reverse

/-- JavaScript `content.split("\n")`: `""` yields `[""]`, a trailing
newline yields a trailing empty line. -/
def splitLines : Str → List Str
  | [] => [[]]
  | c :: r =>
    if c = '\n' then [] :: splitLines r
    else
      match splitLines r with
      | [] => [[c]]
      | t :: ts => (c :: t) :: ts

/-- `trimmedLine.startsWith("# ")` in the chunker. -/
def isLevel1Heading (s : Str) : Bool := List.isPrefixOf ['#', ' '] s

/-- `trimmedLine.startsWith("## ")` in the chunker. -/
def isLevel2Heading (s : Str) : Bool := List.isPrefixOf ['#', '#', ' '] s

/-- The `DocumentChunk` interface of `markdown-reader-tool.ts` (also used by
the GitHub RAG search service). -/
structure DocumentChunk where
  content : Str
  source : Str
  title : Str
  «section» : Str
  deriving DecidableEq, Repr

/-- The object pushed by the chunker:
`{ content: currentChunk.trim(), source: path, title: currentTitle || fileName,
section: currentSection }` (`||` is the JavaScript empty-string fallback). -/
def mkChunk (path fileName title sect cur : Str) : DocumentChunk :=
  { content := trim cur
    source := path
    title := if title = [] then fileName else title
    «section» := sect }

/-- The loop state of `splitMarkdownIntoChunks`: emitted chunks plus the
mutable locals `currentChunk`, `currentTitle`, `currentSection`,
`chunkLineCount`. -/
structure ChunkState where
  chunks : List DocumentChunk
  currentChunk : Str
  currentTitle : Str
  currentSection : Str
  chunkLineCount : Nat
  deriving DecidableEq, Repr

/-- `const maxChunkLines = 50`. -/
def maxChunkLines : Nat := 50

/-- One iteration of the `for (const line of lines)` loop of
`splitMarkdownIntoChunks`. -/
def chunkStep (path fileName : Str) (st : ChunkState) (line : Str) : ChunkState :=
  let trimmedLine := trim line
  if isLevel1Heading trimmedLine then
    { chunks := st.chunks ++
        (if trim st.currentChunk ≠ [] then
          [mkChunk path fileName st.currentTitle st.currentSection st.currentChunk]
        else [])
      currentTitle := trim (trimmedLine.drop 2)
      currentSection := trim (trimmedLine.drop 2)
      currentChunk := line ++ ['\n']
      chunkLineCount := 1 }
  else if isLevel2Heading trimmedLine then
    if trim st.currentChunk ≠ [] ∧ 5 < st.chunkLineCount then
      { chunks := st.chunks ++
          [mkChunk path fileName st.currentTitle st.currentSection st.currentChunk]
        currentTitle := st.currentTitle
        currentSection := trim (trimmedLine.drop 3)
        currentChunk := line ++ ['\n']
        chunkLineCount := 1 }
    else
      { st with
        currentSection := trim (trimmedLine.drop 3)
        currentChunk := st.currentChunk ++ line ++ ['\n']
        chunkLineCount := st.chunkLineCount + 1 }
  else
    if st.chunkLineCount + 1 ≥ maxChunkLines then
      { st with
        chunks := st.chunks ++
          [mkChunk path fileName st.currentTitle st.currentSection
            (st.currentChunk ++ line ++ ['\n'])]
        currentChunk := []
        chunkLineCount := 0 }
    else
      { st with
        currentChunk := st.currentChunk ++ line ++ ['\n']
        chunkLineCount := st.chunkLineCount + 1 }

/-- The trailing `if (currentChunk.trim()) { chunks.push(...) }` after the loop. -/
def finalizeChunks (path fileName : Str) (st : ChunkState) : List DocumentChunk :=
  if trim st.currentChunk ≠ [] then
    st.chunks ++ [mkChunk path fileName st.currentTitle st.currentSection st.currentChunk]
  else st.chunks

/-- All chunks emitted by `splitMarkdownIntoChunks` before the final length
filter. -/
def splitMarkdownRaw (content path fileName : Str) : List DocumentChunk :=
  finalizeChunks path fileName
    (List.foldl (chunkStep path fileName) ⟨[], [], [], [], 0⟩ (splitLines content))

/-- `splitMarkdownIntoChunks` of `markdown-reader-tool.ts` (identical code in
the GitHub RAG search service): chunk, then
`chunks.filter((chunk) => chunk.content.length > 50)`. -/
def splitMarkdownIntoChunks (content path fileName : Str) : List DocumentChunk :=
  (splitMarkdownRaw content path fileName).filter (fun c => 50 < c.content.length)

/-- ASCII case folding of one character, the fragment of JavaScript
`toLowerCase` exercised by these sources. -/
def toLowerChar (c : Char) : Char :=
  if 'A' ≤ c ∧ c ≤ 'Z' then Char.ofNat (c.toNat + 32) else c

/-- JavaScript `String.prototype.toLowerCase` (ASCII fragment). -/
def toLower (s : Str) : Str := s.map toLowerChar

/-- Characters with special meaning to the JavaScript regular-expression
engine.  The sources build `new RegExp(queryLower, "g")` from the raw query;
on a pattern free of these characters that regex matches exactly the literal
pattern substring.  On a pattern containing one of them the construction
either throws a `SyntaxError` (for instance a lone `"("`) or matches
non-literally, so the scorer is modelled only on metacharacter-free
patterns and returns `none` otherwise. -/
def regexMeta (c : Char) : Bool :=
  c == '\\' || c == '^' || c == '$' || c == '.' || c == '|' || c == '?' ||
  c == '*' || c == '+' || c == '(' || c == ')' || c == '[' || c == ']' ||
  c == '{' || c == '}'

/-- Counts left-to-right non-overlapping occurrences of the non-empty
pattern `pat` in the scanned text, as the global regex match does for a
literal pattern.  The scan consumes at least one character per step, so a
fuel equal to the initial text length is always sufficient; fuel makes the
recursion structural. -/
def countOccGo (pat : Str) : Nat → Str → Nat
  | _, [] => 0
  | 0, _ => 0
  | fuel + 1, c :: rest =>
    if List.isPrefixOf pat (c :: rest) then
      countOccGo pat fuel (rest.drop (pat.length - 1)) + 1
    else
      countOccGo pat fuel rest

/-- `(field.match(new RegExp(pattern, "g")) || []).length` for a literal
pattern: the number of non-overlapping occurrences; the empty pattern
matches at every position, giving `s.length + 1`. -/
def countOcc (s pattern : Str) : Nat :=
  match pattern with
  | [] => s.length + 1
  | _ :: _ => countOccGo pattern s.length s

/-- JavaScript `String.prototype.includes`: `pat` occurs as a substring. -/
def containsSub (s pat : Str) : Bool :=
  (List.tails s).any (fun t => List.isPrefixOf pat t)

/-- One step (from the right) of `splitWsRuns`.  The boolean records
whether the character just to the right was whitespace, so that a maximal
whitespace run contributes a single boundary. -/
def splitWsStep (c : Char) (acc : List Str × Bool) : List Str × Bool :=
  if isWs c then (if acc.2 then acc.1 else [] :: acc.1, true)
  else
    (match acc.1 with
     | [] => [[c]]
     | t :: ts => (c :: t) :: ts, false)

/-- JavaScript `query.split(/\s+/)`: split on maximal whitespace runs, with
an empty token at either end when the string starts or ends with
whitespace, and `[""]` for the empty string. -/
def splitWsRuns (s : Str) : List Str := (s.foldr splitWsStep ([[]], false)).1

/-- The per-word presence bonus of `calculateRelevanceScore`: words longer
than 2 characters add 3/2/1 for presence in title/section/content. -/
def wordBonus (titleLower sectionLower contentLower word : Str) : Nat :=
  if 2 < word.length then
    (if containsSub titleLower word then 3 else 0) +
    (if containsSub sectionLower word then 2 else 0) +
    (if containsSub contentLower word then 1 else 0)
  else 0

/-- `calculateRelevanceScore(doc, queryLower)`: phrase-occurrence counts
weighted 10/5/1 over title/section/content plus the per-word presence
bonuses.  Returns `none` when the pattern contains a regex metacharacter,
where the unescaped `new RegExp(queryLower, "g")` of the source deviates
from literal matching (throwing on invalid syntax such as a lone `"("`). -/
def calculateRelevanceScore (doc : DocumentChunk) (queryLower : Str) : Option Nat :=
  if queryLower.any regexMeta then none
  else
    some (10 * countOcc (toLower doc.title) queryLower +
      5 * countOcc (toLower doc.«section») queryLower +
      countOcc (toLower doc.content) queryLower +
      ((splitWsRuns queryLower).map
        (wordBonus (toLower doc.title) (toLower doc.«section») (toLower doc.content))).sum)

/-- A chunk together with its transient query score
(`{ ...doc, score }` in `searchDocuments`). -/
structure ScoredChunk where
  doc : DocumentChunk
  score : Nat
  deriving DecidableEq, Repr

/-- Maps a fallible function over a list; any failure aborts the whole map,
as a thrown exception aborts the JavaScript `.map` callback loop. -/
def mapOption (f : α → Option β) : List α → Option (List β)
  | [] => some []
  | a :: l =>
    match f a, mapOption f l with
    | some b, some bs => some (b :: bs)
    | _, _ => none

/-- Stable descending insertion by score: an element is placed after every
earlier element of strictly greater or equal score. -/
def insertByScoreDesc (x : ScoredChunk) : List ScoredChunk → List ScoredChunk
  | [] => [x]
  | y :: ys =>
    if x.score < y.score then y :: insertByScoreDesc x ys
    else x :: y :: ys

/-- The stable descending sort performed by
`.sort((a, b) => b.score - a.score)` (JavaScript `Array.prototype.sort` is
stable, and a stable sort by a total preorder is extensionally unique). -/
def sortByScoreDesc : List ScoredChunk → List ScoredChunk
  | [] => []
  | x :: xs => insertByScoreDesc x (sortByScoreDesc xs)

/-- `searchDocuments(query, maxResults)` up to the final score-stripping
`.map(({score, ...doc}) => doc)`: score every chunk against the lowercased
query, keep positive scores, sort descending (stably), truncate. -/
def searchScored (docs : List DocumentChunk) (query : Str) (maxResults : Nat) :
    Option (List ScoredChunk) :=
  (mapOption (fun d => (calculateRelevanceScore d (toLower query)).map (ScoredChunk.mk d)) docs).map
    (fun scored =>
      (sortByScoreDesc (scored.filter (fun r => 0 < r.score))).take maxResults)

/-- `searchDocuments` results as returned to the caller (scores stripped). -/
def searchDocuments (docs : List DocumentChunk) (query : Str) (maxResults : Nat) :
    Option (List DocumentChunk) :=
  (searchScored docs query maxResults).map (List.map ScoredChunk.doc)

/-- A raw input document `{ name, path, content }`. -/
structure RawDoc where
  name : Str
  path : Str
  content : Str
  deriving DecidableEq, Repr

/-- `loadDocuments`: the knowledge base after loading — every document is
chunked and the chunks are concatenated in order (the previous collection is
replaced wholesale). -/
def loadDocuments (docs : List RawDoc) : List DocumentChunk :=
  docs.flatMap (fun d => splitMarkdownIntoChunks d.content d.path d.name)

/-- The mutable state of `GitHubRAGSearchService`. -/
structure RAGState where
  isInitialized : Bool
  knowledgeBase : List DocumentChunk
  deriving DecidableEq, Repr

/-- The result shape of `initializeKnowledgeBase`.  (The human-readable
`message` string is omitted.) -/
structure InitOutcome where
  success : Bool
  cached : Bool
  documentsCount : Nat
  chunksCount : Nat
  deriving DecidableEq, Repr

/-- `GitHubRAGSearchService.initializeKnowledgeBase(forceReload)`, with the
repository collaborator (recursive file listing plus content fetch, happy
path) supplied as the list of markdown files `repo`.  If already
initialized and not forced, reports the cached collection; otherwise the
knowledge base is rebuilt by chunking every file.  Note that it reports
`success: true` even when zero chunks are produced. -/
def initKnowledgeBase (repo : List RawDoc) (forceReload : Bool) (st : RAGState) :
    RAGState × InitOutcome :=
  if st.isInitialized && !forceReload then
    (st, ⟨true, true, st.knowledgeBase.length, st.knowledgeBase.length⟩)
  else
    let kb := loadDocuments repo
    (⟨true, kb⟩, ⟨true, false, repo.length, kb.length⟩)

/-- Outcomes of `GitHubRAGSearchService.searchKnowledgeBase`: a successful
result list (each entry further enriched in the source with a
query-focused excerpt and a summary, which do not affect which entries are
returned and are omitted here), the explicit `无法初始化知识库进行搜索`
("cannot initialize the knowledge base for search") failure, or an
uncaught exception from the scorer. -/
inductive KBSearchOutcome where
  | ok (results : List DocumentChunk) (count : Nat) (totalDocuments : Nat)
  | cannotInit
  | thrown
  deriving DecidableEq, Repr

/-- `GitHubRAGSearchService.searchKnowledgeBase(query, maxResults)`: an
implicit load runs first when the service is uninitialized or holds no
chunks; only an unsuccessful load aborts with the explicit failure. -/
def searchKnowledgeBase (repo : List RawDoc) (query : Str) (maxResults : Nat)
    (st : RAGState) : RAGState × KBSearchOutcome :=
  let run : RAGState → RAGState × KBSearchOutcome := fun st' =>
    match searchScored st'.knowledgeBase query maxResults with
    | none => (st', .thrown)
    | some res =>
      (st', .ok (res.map ScoredChunk.doc) res.length st'.knowledgeBase.length)
  if !st.isInitialized || st.knowledgeBase.length == 0 then
    let p := initKnowledgeBase repo false st
    if p.2.success then run p.1 else (p.1, .cannotInit)
  else run st

/-- The metadata record stored with each vector by
`GitHubVectorRAGService` (`text`, `source`, `title`, `section`, `id`). -/
structure VecMeta where
  text : Str
  source : Str
  title : Str
  «section» : Str
  id : Str
  deriving DecidableEq, Repr

/-- The state of `GitHubVectorRAGService`: the local `isInitialized` flag
and the contents of the backing LibSQL vector store (metadata records;
the numeric vectors live with the embedding collaborator and play no role
in the properties studied here). -/
structure VecState where
  isInitialized : Bool
  store : List VecMeta
  deriving DecidableEq, Repr

/-- Outcomes of `GitHubVectorRAGService.initializeVectorStore`:
`cachedOk` (existing data found, skip), `ok` (documents processed and
stored), `noMarkdownFiles` (`仓库中未找到 markdown 文件`) and `noChunks`
(`没有找到可处理的文档内容`) are the two `success: false` returns. -/
inductive VecInitOutcome where
  | cachedOk
  | ok (documentsCount chunksCount : Nat)
  | noMarkdownFiles
  | noChunks
  deriving DecidableEq, Repr

/-- The `success` field of the `initializeVectorStore` result. -/
def VecInitOutcome.success : VecInitOutcome → Bool
  | .cachedOk => true
  | .ok _ _ => true
  | .noMarkdownFiles => false
  | .noChunks => false

/-- `GitHubVectorRAGService.initializeVectorStore(forceReload)`.
Collaborators are supplied as values: `files` is the repository's markdown
file list and `mchunk` is the external Mastra semantic-markdown chunker
applied to one file (per-file fetch/chunk failures are caught in the
source and degrade to `[]`, so they are absorbed into `mchunk`).  Batched
embedding and upserting only partition the same records, so storing is
modelled as appending all records to the store. -/
def initVectorStore (mchunk : RawDoc → List VecMeta) (files : List RawDoc)
    (forceReload : Bool) (st : VecState) : VecState × VecInitOutcome :=
  if !forceReload && 0 < st.store.length then
    ({ st with isInitialized := true }, .cachedOk)
  else if files.length = 0 then
    (st, .noMarkdownFiles)
  else
    let allChunks := files.flatMap mchunk
    if allChunks.length = 0 then (st, .noChunks)
    else (⟨true, st.store ++ allChunks⟩, .ok files.length allChunks.length)

/-- Outcomes of `GitHubVectorRAGService.vectorSearch`: a ranked result list
from the vector store, or the explicit `无法初始化向量数据库进行搜索`
("cannot initialize the vector store for search") failure. -/
inductive VecSearchOutcome where
  | ok (results : List VecMeta) (count : Nat)
  | cannotInit
  deriving DecidableEq, Repr

/-- `GitHubVectorRAGService.vectorSearch(query, maxResults)`.  The
embedding of the query and the nearest-neighbour ranking are collaborator
calls, supplied as `vq` (ranked metadata for a query over the store).
While uninitialized: existing store data marks the service initialized;
otherwise an implicit `initializeVectorStore` runs, and its failure aborts
the search with the explicit error. -/
def vectorSearch (mchunk : RawDoc → List VecMeta) (files : List RawDoc)
    (vq : List VecMeta → Str → Nat → List VecMeta) (query : Str) (maxResults : Nat)
    (st : VecState) : VecState × VecSearchOutcome :=
  let run : VecState → VecState × VecSearchOutcome := fun st' =>
    (st', .ok (vq st'.store query maxResults) (vq st'.store query maxResults).length)
  if !st.isInitialized then
    if 0 < st.store.length then run { st with isInitialized := true }
    else
      let p := initVectorStore mchunk files false st
      if p.2.success then run p.1 else (p.1, .cannotInit)
  else run st

/-- The result shape of `clearVectorStore`. -/
structure ClearOutcome where
  success : Bool
  deriving DecidableEq, Repr

/-- `GitHubVectorRAGService.clearVectorStore()`: the source comments that
LibSQL has no direct clear and "simply resets the initialization state";
no deletion is issued against the backing store. -/
def clearVectorStore (st : VecState) : VecState × ClearOutcome :=
  ({ st with isInitialized := false }, ⟨true⟩)

/-! Concrete inputs used by the end-to-end scenarios. -/

/-- The markdown file `"# Intro\nSome text.\n## Setup\nShort.\n"` of the
end-to-end scenario, as its list of lines (the trailing newline yields a
trailing empty line). -/
def introContent : Str :=
  List.intercalate ['\n']
    [['#', ' ', 'I', 'n', 't', 'r', 'o'],
     ['S', 'o', 'm', 'e', ' ', 't', 'e', 'x', 't', '.'],
     ['#', '#', ' ', 'S', 'e', 't', 'u', 'p'],
     ['S', 'h', 'o', 'r', 't', '.'],
     []]

/-- The source path used in the scenario. -/
def introPath : Str := ['d', 'o', 'c', 's', '/', 'i', '.', 'm', 'd']

/-- The file name used in the scenario. -/
def introName : Str := ['i', '.', 'm', 'd']

/-- The query `"setup"`. -/
def setupQuery : Str := ['s', 'e', 't', 'u', 'p']

/-- The single chunk the chunker accumulates for `introContent` before the
length filter: both heading lines and both body lines, title `Intro`,
section `Setup`. -/
def introPreChunk : DocumentChunk :=
  { content := trim (List.intercalate ['\n']
      [['#', ' ', 'I', 'n', 't', 'r', 'o'],
       ['S', 'o', 'm', 'e', ' ', 't', 'e', 'x', 't', '.'],
       ['#', '#', ' ', 'S', 'e', 't', 'u', 'p'],
       ['S', 'h', 'o', 'r', 't', '.'], []])
    source := introPath
    title := ['I', 'n', 't', 'r', 'o']
    «section» := ['S', 'e', 't', 'u', 'p'] }

/-- `"hello world"`. -/
def helloWorld : Str :=
  ['h', 'e', 'l', 'l', 'o', ' ', 'w', 'o', 'r', 'l', 'd']

/-- A 71-character one-line markdown file without headings:
`"hello world"` six times, space separated. -/
def wsDocContent : Str := List.intercalate [' '] (List.replicate 6 helloWorld)

/-- The chunk produced by loading `wsDocContent` (one line, emitted at end
of input, 71 characters, so it survives the length filter; its title falls
back to the file name). -/
def wsChunk : DocumentChunk :=
  { content := wsDocContent
    source := ['a', '/', 'b', '.', 'm', 'd']
    title := ['b', '.', 'm', 'd']
    «section» := [] }

/-- Joins lines back with a trailing newline each: the accumulator built by
the chunker after processing those lines (each iteration appends
`line + "\n"`). -/
def joinNl (ls : List Str) : Str := ls.flatMap (fun l => l ++ ['\n'])

/-- The heading-precedence scenario: a level-1 heading, 3 body lines, a
level-2 heading, 2 body lines, a second level-2 heading, 10 body lines. -/
def c5lines : List Str :=
  [['#', ' ', 'T'], ['b', '1'], ['b', '2'], ['b', '3'],
   ['#', '#', ' ', 'A'], ['c', '1'], ['c', '2'],
   ['#', '#', ' ', 'B']] ++ List.replicate 10 ['d', 'd']

/-- The scenario document for the heading-precedence test. -/
def c5doc : Str := List.intercalate ['\n'] c5lines

/-- Source path for the heading-precedence scenario. -/
def c5path : Str := ['p', '.', 'm', 'd']

/-- First chunk the pass emits on `c5doc`: everything up to (excluding) the
second level-2 heading, attributed to section `A`. -/
def c5chunk1 : DocumentChunk :=
  ⟨trim (joinNl (c5lines.take 7)), c5path, ['T'], ['A']⟩

/-- Second chunk the pass emits on `c5doc`: the second level-2 heading and
its 10 body lines, attributed to section `B`. -/
def c5chunk2 : DocumentChunk :=
  ⟨trim (joinNl (c5lines.drop 7)), c5path, ['T'], ['B']⟩

/-- Whether a line is treated as neither a level-1 nor a level-2 heading by
the chunker (which tests the trimmed line). -/
def nonHeading (l : Str) : Prop :=
  isLevel1Heading (trim l) = false ∧ isLevel2Heading (trim l) = false

instance (l : Str) : Decidable (nonHeading l) := by
  unfold nonHeading
  infer_instance

/-- A 120-line headingless document with pairwise-distinct lines
(`x0`, `x1`, …, `x119`). -/
def c6lines : List Str :=
  (List.range 120).map (fun i => 'x' :: Nat.toDigits 10 i)

/-- The 120-line document joined with newlines. -/
def c6doc : Str := List.intercalate ['\n'] c6lines

/-- Chunks used by the ranking scenario: the query `"doc"` occurs once in
the content of `c7A`. -/
def c7A : DocumentChunk := ⟨['d', 'o', 'c', ' ', 'a'], ['s'], ['t'], []⟩

/-- `"doc"` occurs once in the content of `c7B`, giving it the same score
as `c7A`; it is inserted after `c7A`. -/
def c7B : DocumentChunk := ⟨['d', 'o', 'c', ' ', 'b'], ['s'], ['t'], []⟩

/-- `"doc"` occurs in the title of `c7T`, giving it the highest score. -/
def c7T : DocumentChunk := ⟨['x', 'x'], ['s'], ['d', 'o', 'c'], []⟩

/-- A chunk that does not match `"doc"` at all (score 0, excluded). -/
def c7Z : DocumentChunk := ⟨['z'], ['s'], ['t'], []⟩

/-- The ranking scenario collection, in insertion order. -/
def c7docs : List DocumentChunk := [c7A, c7Z, c7T, c7B]

/-- The query `"doc"`. -/
def docQuery : Str := ['d', 'o', 'c']

/-- C1, counterexample: loading the file
`"# Intro\nSome text.\n## Setup\nShort.\n"` does not yield exactly 1 chunk —
it yields 0, because the single accumulated chunk is 34 characters long and
the `content.length > 50` filter drops it. -/
theorem intro_scenario_yields_no_chunks :
    (splitMarkdownIntoChunks introContent introPath introName).length = 0 ∧
    (splitMarkdownIntoChunks introContent introPath introName).length ≠ 1 := by
  exact ⟨by decide, by decide⟩

/-- C1, amended: for `"# Intro\nSome text.\n## Setup\nShort.\n"` the chunker
accumulates exactly one pre-filter chunk with title `Intro`, section
`Setup` and both heading lines in its content, whose relevance score for
`"setup"` is 9 (section phrase weight 5, content phrase weight 1, plus
word-presence bonuses 2 for section and 1 for content); but that chunk is
34 characters long, so the `> 50` length filter drops it, loading yields 0
chunks, and searching `"setup"` returns an empty result list. -/
theorem intro_scenario_amended :
    splitMarkdownRaw introContent introPath introName = [introPreChunk] ∧
    introPreChunk.title = ['I', 'n', 't', 'r', 'o'] ∧
    introPreChunk.«section» = ['S', 'e', 't', 'u', 'p'] ∧
    introPreChunk.content.length = 34 ∧
    splitMarkdownIntoChunks introContent introPath introName = [] ∧
    calculateRelevanceScore introPreChunk setupQuery = some 9 ∧
    searchDocuments (loadDocuments [⟨introName, introPath, introContent⟩]) setupQuery 5 =
      some [] := by
  exact ⟨by decide, by decide, by decide, by decide, by decide, by decide, by decide⟩

/-- C4: the relevance scorer passes the raw lowercased query to
`new RegExp(queryLower, "g")` without escaping; on the query `"("` the
constructor throws a `SyntaxError` (modelled as `none`), so scoring — and
hence the whole search — produces no value instead of counting `"("` as a
literal substring. -/
theorem metachar_query_scoring_throws :
    calculateRelevanceScore wsChunk ['('] = none ∧
    searchScored [wsChunk] ['('] 5 = none := by
  exact ⟨by decide, by decide⟩

/-- The head surviving a `dropWhile` fails the predicate. -/
theorem dropWhile_head_false {α} {p : α → Bool} {a : α} {t : List α} :
    ∀ l : List α, l.dropWhile p = a :: t → p a = false := by
  intro l
  induction l with
  | nil => intro h; simp at h
  | cons b l ih =>
    intro h
    rw [List.dropWhile_cons] at h
    split at h
    · exact ih h
    · next hb =>
      cases h
      simpa using hb

/-- `dropWhile` removes a prefix of the list. -/
theorem dropWhile_exists_append {α} (p : α → Bool) :
    ∀ l : List α, ∃ t, t ++ l.dropWhile p = l := by
  intro l
  induction l with
  | nil => exact ⟨[], rfl⟩
  | cons b l ih =>
    rw [List.dropWhile_cons]
    split
    · obtain ⟨t, ht⟩ := ih
      exact ⟨b :: t, by rw [List.cons_append, ht]⟩
    · exact ⟨[], rfl⟩

/-- `dropWhile` is idempotent. -/
theorem dropWhile_idem {α} (p : α → Bool) (l : List α) :
    (l.dropWhile p).dropWhile p = l.dropWhile p := by
  cases h : l.dropWhile p with
  | nil => rfl
  | cons a t =>
    have ha := dropWhile_head_false l h
    rw [List.dropWhile_cons, ha]
    simp

/-- JavaScript `trim` is idempotent. -/
theorem trim_trim (s : Str) : trim (trim s) = trim s := by
  unfold trim
  set u := s.dropWhile isWs with hu
  set w := u.reverse.dropWhile isWs with hw
  have h1 : w.reverse.dropWhile isWs = w.reverse := by
    obtain ⟨t, ht⟩ := dropWhile_exists_append isWs u.reverse
    cases hwr : w.reverse with
    | nil => simp
    | cons a v =>
      have h2 : w.reverse ++ t.reverse = u := by
        have h3 := congrArg List.reverse ht
        simpa using h3
      have hs' : s.dropWhile isWs = a :: (v ++ t.reverse) := by
        rw [← hu, ← h2, hwr]
        simp
      have ha := dropWhile_head_false s hs'
      rw [List.dropWhile_cons, ha]
      simp
  rw [h1, List.reverse_reverse, hw, dropWhile_idem]

/-- Every chunk emitted by one chunker step that was not already present
has trimmed content. -/
theorem chunkStep_chunks_cases (p n : Str) (st : ChunkState) (l : Str)
    (c : DocumentChunk) (hc : c ∈ (chunkStep p n st l).chunks) :
    c ∈ st.chunks ∨ ∃ s, c.content = trim s := by
  simp only [chunkStep] at hc
  split at hc
  · rcases List.mem_append.mp hc with h | h
    · exact Or.inl h
    · right
      split at h
      · obtain rfl := List.mem_singleton.mp h
        exact ⟨st.currentChunk, rfl⟩
      · simp at h
  · rw [apply_ite ChunkState.chunks] at hc
    split at hc
    · rw [apply_ite ChunkState.chunks] at hc
      split at hc
      · rcases List.mem_append.mp hc with h | h
        · exact Or.inl h
        · obtain rfl := List.mem_singleton.mp h
          exact Or.inr ⟨st.currentChunk, rfl⟩
      · exact Or.inl hc
    · rw [apply_ite ChunkState.chunks] at hc
      split at hc
      · rcases List.mem_append.mp hc with h | h
        · exact Or.inl h
        · obtain rfl := List.mem_singleton.mp h
          exact Or.inr ⟨_, rfl⟩
      · exact Or.inl hc

/-- Chunks accumulated over the whole line loop have trimmed content
unless present from the start. -/
theorem foldl_chunks_cases (p n : Str) :
    ∀ (ls : List Str) (st : ChunkState) (c : DocumentChunk),
      c ∈ (List.foldl (chunkStep p n) st ls).chunks →
      c ∈ st.chunks ∨ ∃ s, c.content = trim s := by
  intro ls
  induction ls with
  | nil => intro st c hc; exact Or.inl hc
  | cons l ls ih =>
    intro st c hc
    rw [List.foldl_cons] at hc
    rcases ih _ c hc with h | h
    · exact chunkStep_chunks_cases p n st l c h
    · exact Or.inr h

/-- Every chunk the pass produces (before the length filter) has content of
the form `trim s`. -/
theorem mem_splitMarkdownRaw (content p n : Str) (c : DocumentChunk)
    (hc : c ∈ splitMarkdownRaw content p n) : ∃ s, c.content = trim s := by
  unfold splitMarkdownRaw finalizeChunks at hc
  split at hc
  · rcases List.mem_append.mp hc with h | h
    · rcases foldl_chunks_cases p n _ _ c h with h' | h'
      · simp at h'
      · exact h'
    · obtain rfl := List.mem_singleton.mp h
      exact ⟨_, rfl⟩
  · rcases foldl_chunks_cases p n _ _ c hc with h' | h'
    · simp at h'
    · exact h'

/-- C2: every chunk returned by `splitMarkdownIntoChunks` has trimmed
content longer than 50 characters; chunks at or below that length are never
present (the pushed content is already trimmed, and the final filter keeps
only `content.length > 50`). -/
theorem chunk_trimmed_length_gt_50 (content path fileName : Str) (c : DocumentChunk)
    (hc : c ∈ splitMarkdownIntoChunks content path fileName) :
    50 < (trim c.content).length := by
  unfold splitMarkdownIntoChunks at hc
  obtain ⟨hraw, hlen⟩ := List.mem_filter.mp hc
  obtain ⟨s, hs⟩ := mem_splitMarkdownRaw content path fileName c hraw
  rw [hs, trim_trim, ← hs]
  exact of_decide_eq_true hlen

/-- C2, witness: the 71-character chunk of `wsDocContent` is a chunk of the
loaded knowledge base and satisfies the bound. -/
theorem chunk_trimmed_length_gt_50_witness : 50 < (trim wsChunk.content).length :=
  chunk_trimmed_length_gt_50 wsDocContent ['a', '/', 'b', '.', 'm', 'd']
    ['b', '.', 'm', 'd'] wsChunk (by decide)

/-- A line whose trimmed form starts with `"## "` does not start with
`"# "`. -/
theorem isLevel1_eq_false_of_isLevel2 (s : Str) (h : isLevel2Heading s = true) :
    isLevel1Heading s = false := by
  cases s with
  | nil => simp [isLevel2Heading, List.isPrefixOf] at h
  | cons a t =>
    cases t with
    | nil => simp [isLevel2Heading, List.isPrefixOf] at h
    | cons b t2 =>
      simp only [isLevel2Heading, List.isPrefixOf, Bool.and_eq_true, beq_iff_eq] at h
      obtain ⟨ha, hb, -⟩ := h
      subst ha
      subst hb
      simp [isLevel1Heading, List.isPrefixOf]

/-- C10: heading detection operates on the whitespace-trimmed line.  Any
line whose trim starts with `"# "` is handled as a level-1 heading — the
pending accumulator is emitted when non-empty and both title and section
become the heading text — and any line whose trim starts with `"## "` has
its heading text installed as the new section; in particular the indented
lines `"   # Title"`, `"\t# Title"` and `"   ## Sub"` are headings even
though they do not start with `#` at column 0. -/
theorem heading_detection_on_trimmed_line :
    (∀ (path fileName : Str) (st : ChunkState) (line : Str),
      isLevel1Heading (trim line) = true →
      chunkStep path fileName st line =
        { chunks := st.chunks ++
            (if trim st.currentChunk ≠ [] then
              [mkChunk path fileName st.currentTitle st.currentSection st.currentChunk]
            else [])
          currentTitle := trim ((trim line).drop 2)
          currentSection := trim ((trim line).drop 2)
          currentChunk := line ++ ['\n']
          chunkLineCount := 1 }) ∧
    (∀ (path fileName : Str) (st : ChunkState) (line : Str),
      isLevel2Heading (trim line) = true →
      (chunkStep path fileName st line).currentSection = trim ((trim line).drop 3)) ∧
    isLevel1Heading (trim [' ', ' ', ' ', '#', ' ', 'T', 'i', 't', 'l', 'e']) = true ∧
    isLevel1Heading (trim ['\t', '#', ' ', 'T', 'i', 't', 'l', 'e']) = true ∧
    isLevel2Heading (trim [' ', ' ', ' ', '#', '#', ' ', 'S', 'u', 'b']) = true := by
  refine ⟨?_, ?_, by decide, by decide, by decide⟩
  · intro p n st l h
    simp [chunkStep, h]
  · intro p n st l h
    have h1 := isLevel1_eq_false_of_isLevel2 _ h
    simp only [chunkStep, h, h1, Bool.false_eq_true, if_false, if_true]
    rw [apply_ite ChunkState.currentSection]
    simp

/-- C10, witness: the indented line `"   # Title"` from a state with a
pending non-empty accumulator emits that accumulator and installs title and
section `Title`. -/
theorem heading_detection_witness :
    chunkStep ['p'] ['n'] ⟨[], ['x'], [], [], 1⟩
        [' ', ' ', ' ', '#', ' ', 'T', 'i', 't', 'l', 'e'] =
      { chunks := [mkChunk ['p'] ['n'] [] [] ['x']]
        currentTitle := ['T', 'i', 't', 'l', 'e']
        currentSection := ['T', 'i', 't', 'l', 'e']
        currentChunk := [' ', ' ', ' ', '#', ' ', 'T', 'i', 't', 'l', 'e', '\n']
        chunkLineCount := 1 } :=
  heading_detection_on_trimmed_line.1 ['p'] ['n'] ⟨[], ['x'], [], [], 1⟩
    [' ', ' ', ' ', '#', ' ', 'T', 'i', 't', 'l', 'e'] (by decide)

/-- C5: on a level-2 heading line the accumulator is emitted if and only if
it is non-empty after trimming and its line count strictly exceeds 5; in
both cases the section becomes the heading text and the heading line is
appended to the (possibly reset) accumulator.  In the concrete scenario —
a level-1 heading, 3 body lines, `## A`, 2 body lines, `## B`, 10 body
lines — the pass emits exactly two chunks: the `## A` transition (5 lines
accumulated) does not split, the `## B` transition (7 lines) does. -/
theorem level2_split_rule :
    (∀ (path fileName : Str) (st : ChunkState) (line : Str),
      isLevel2Heading (trim line) = true →
      chunkStep path fileName st line =
        if trim st.currentChunk ≠ [] ∧ 5 < st.chunkLineCount then
          { chunks := st.chunks ++
              [mkChunk path fileName st.currentTitle st.currentSection st.currentChunk]
            currentTitle := st.currentTitle
            currentSection := trim ((trim line).drop 3)
            currentChunk := line ++ ['\n']
            chunkLineCount := 1 }
        else
          { st with
            currentSection := trim ((trim line).drop 3)
            currentChunk := st.currentChunk ++ line ++ ['\n']
            chunkLineCount := st.chunkLineCount + 1 }) ∧
    splitMarkdownRaw c5doc c5path ['n', '.', 'm', 'd'] = [c5chunk1, c5chunk2] := by
  refine ⟨?_, by decide⟩
  intro p n st l h
  have h1 := isLevel1_eq_false_of_isLevel2 _ h
  simp [chunkStep, h, h1]

/-- C5, witness: processing `"## B"` from a 7-line accumulator emits the
pending chunk with the previous section and restarts the accumulator with
the heading line. -/
theorem level2_split_rule_witness :
    chunkStep ['p'] ['n'] ⟨[], ['y'], ['T'], ['A'], 7⟩ ['#', '#', ' ', 'B'] =
      { chunks := [mkChunk ['p'] ['n'] ['T'] ['A'] ['y']]
        currentTitle := ['T']
        currentSection := ['B']
        currentChunk := ['#', '#', ' ', 'B', '\n']
        chunkLineCount := 1 } :=
  level2_split_rule.1 ['p'] ['n'] ⟨[], ['y'], ['T'], ['A'], 7⟩
    ['#', '#', ' ', 'B'] (by decide)

/-- Whitespace characters are not regex metacharacters. -/
theorem regexMeta_eq_false_of_isWs {c : Char} (h : isWs c = true) : regexMeta c = false := by
  simp only [isWs, Bool.or_eq_true, beq_iff_eq] at h
  rcases h with ((h | h) | h) | h <;> subst h <;> rfl

/-- A query made only of whitespace contains no regex metacharacter. -/
theorem any_regexMeta_eq_false {q : Str} (h : ∀ c ∈ q, isWs c = true) :
    q.any regexMeta = false := by
  induction q with
  | nil => rfl
  | cons c rest ih =>
    rw [List.any_cons, regexMeta_eq_false_of_isWs (h c (List.mem_cons_self c rest)),
      ih (fun x hx => h x (List.mem_cons_of_mem c hx))]
    rfl

/-- Splitting a non-empty all-whitespace string on whitespace runs yields
two empty tokens, exactly as `" ".split(/\s+/)` yields `["", ""]`. -/
theorem splitWs_all_ws : ∀ q : Str, q ≠ [] → (∀ c ∈ q, isWs c = true) →
    q.foldr splitWsStep ([[]], false) = ([[], []], true) := by
  intro q
  induction q with
  | nil => intro h; exact absurd rfl h
  | cons c rest ih =>
    intro _ hws
    rw [List.foldr_cons]
    cases rest with
    | nil => simp [splitWsStep, hws c (by simp)]
    | cons d rest2 =>
      rw [ih (by simp) (fun x hx => hws x (List.mem_cons_of_mem c hx))]
      simp [splitWsStep, hws c (by simp)]

/-- C3, counterexample: with the loaded one-chunk knowledge base of
`wsDocContent`, the whitespace query `" "` scores 11 (one phrase
occurrence per space in the content), not 0, and the search returns that
chunk rather than an empty list. -/
theorem whitespace_query_returns_result :
    loadDocuments [⟨['b', '.', 'm', 'd'], ['a', '/', 'b', '.', 'm', 'd'], wsDocContent⟩] =
      [wsChunk] ∧
    calculateRelevanceScore wsChunk [' '] = some 11 ∧
    searchScored [wsChunk] [' '] 5 = some [⟨wsChunk, 11⟩] ∧
    searchScored [wsChunk] [' '] 5 ≠ some [] := by
  exact ⟨by decide, by decide, by decide, by decide⟩

/-- C3, amended: for a whitespace-only query every split word is empty, so
the word-bonus contribution is 0 and the score reduces to the phrase
component alone — but that component counts literal occurrences of the
whitespace string in title/section/content, so chunks containing it score
positive and are returned; the result list need not be empty. -/
theorem whitespace_query_amended :
    (∀ (doc : DocumentChunk) (q : Str), q ≠ [] → (∀ c ∈ q, isWs c = true) →
      calculateRelevanceScore doc q =
        some (10 * countOcc (toLower doc.title) q +
          5 * countOcc (toLower doc.«section») q +
          countOcc (toLower doc.content) q)) ∧
    (searchScored [wsChunk] [' '] 5).map List.length = some 1 := by
  refine ⟨?_, by decide⟩
  intro doc q hne hws
  unfold calculateRelevanceScore
  rw [any_regexMeta_eq_false hws,
    show splitWsRuns q = [[], []] from by
      unfold splitWsRuns
      rw [splitWs_all_ws q hne hws]]
  simp [wordBonus]

/-- C3, witness: the amended formula applied to the concrete chunk and the
query `" "`. -/
theorem whitespace_query_amended_witness :
    calculateRelevanceScore wsChunk [' '] =
      some (10 * countOcc (toLower wsChunk.title) [' '] +
        5 * countOcc (toLower wsChunk.«section») [' '] +
        countOcc (toLower wsChunk.content) [' ']) :=
  whitespace_query_amended.1 wsChunk [' '] (by decide) (by decide)

/-- Folding non-heading lines that do not reach the 50-line ceiling only
accumulates text: no chunk is emitted and title/section are untouched. -/
theorem foldl_nonheading_under (p n : Str) :
    ∀ (ls : List Str) (st : ChunkState),
      (∀ l ∈ ls, nonHeading l) → st.chunkLineCount + ls.length < 50 →
      List.foldl (chunkStep p n) st ls =
        { st with
          currentChunk := st.currentChunk ++ joinNl ls
          chunkLineCount := st.chunkLineCount + ls.length } := by
  intro ls
  induction ls with
  | nil =>
    intro st _ _
    simp [joinNl]
  | cons l ls ih =>
    intro st hnh hlen
    rw [List.foldl_cons]
    obtain ⟨h1, h2⟩ := hnh l (List.mem_cons_self l ls)
    have hlt : ¬st.chunkLineCount + 1 ≥ maxChunkLines := by
      simp only [List.length_cons] at hlen
      unfold maxChunkLines
      omega
    have hstep : chunkStep p n st l =
        { st with
          currentChunk := st.currentChunk ++ l ++ ['\n']
          chunkLineCount := st.chunkLineCount + 1 } := by
      simp only [chunkStep, h1, h2, Bool.false_eq_true, if_false]
      rw [if_neg hlt]
    rw [hstep, ih _ (fun x hx => hnh x (List.mem_cons_of_mem l hx))
      (by simp only [List.length_cons] at hlen ⊢; omega)]
    simp only [joinNl, List.flatMap_cons, ChunkState.mk.injEq, List.append_assoc,
      true_and, and_true, List.length_cons]
    omega

/-- Folding non-heading lines that land exactly on the 50-line ceiling
emits one chunk holding all accumulated text and resets the accumulator;
title and section carry forward unchanged. -/
theorem foldl_nonheading_fill (p n : Str) :
    ∀ (ls : List Str) (st : ChunkState),
      (∀ l ∈ ls, nonHeading l) → ls ≠ [] → st.chunkLineCount + ls.length = 50 →
      List.foldl (chunkStep p n) st ls =
        { st with
          chunks := st.chunks ++
            [mkChunk p n st.currentTitle st.currentSection (st.currentChunk ++ joinNl ls)]
          currentChunk := []
          chunkLineCount := 0 } := by
  intro ls
  induction ls with
  | nil => intro st _ h; exact absurd rfl h
  | cons l ls ih =>
    intro st hnh _ hlen
    rw [List.foldl_cons]
    obtain ⟨h1, h2⟩ := hnh l (List.mem_cons_self l ls)
    cases ls with
    | nil =>
      simp only [List.length_cons, List.length_nil] at hlen
      have hge : st.chunkLineCount + 1 ≥ maxChunkLines := by
        unfold maxChunkLines
        omega
      rw [List.foldl_nil]
      simp only [chunkStep, h1, h2, Bool.false_eq_true, if_false]
      rw [if_pos hge]
      simp [joinNl, List.append_assoc]
    | cons l2 ls2 =>
      have hlt : ¬st.chunkLineCount + 1 ≥ maxChunkLines := by
        simp only [List.length_cons] at hlen
        unfold maxChunkLines
        omega
      have hstep : chunkStep p n st l =
          { st with
            currentChunk := st.currentChunk ++ l ++ ['\n']
            chunkLineCount := st.chunkLineCount + 1 } := by
        simp only [chunkStep, h1, h2, Bool.false_eq_true, if_false]
        rw [if_neg hlt]
      rw [hstep, ih _ (fun x hx => hnh x (List.mem_cons_of_mem l hx)) (by simp)
        (by simp only [List.length_cons] at hlen ⊢; omega)]
      simp [joinNl, List.append_assoc]

/-- C6: a 120-line document with no heading lines (and pairwise-distinct
lines, each of the three 50/50/20 segments trimming to more than 50
characters) produces exactly 3 chunks, covering lines 1–50, 51–100 and
101–120, with title falling back to the file name and section empty in all
three — the heading context carries forward unchanged across size-forced
splits, and no chunks merge across the boundary. -/
theorem size_ceiling_three_chunks (content path fileName : Str) (ls : List Str)
    (hsplit : splitLines content = ls) (hlen : ls.length = 120)
    (hnh : ∀ l ∈ ls, nonHeading l)
    (hdist : ls.Pairwise (· ≠ ·))
    (h1 : 50 < (trim (joinNl (ls.take 50))).length)
    (h2 : 50 < (trim (joinNl ((ls.drop 50).take 50))).length)
    (h3 : 50 < (trim (joinNl (ls.drop 100))).length) :
    splitMarkdownIntoChunks content path fileName =
      [⟨trim (joinNl (ls.take 50)), path, fileName, []⟩,
       ⟨trim (joinNl ((ls.drop 50).take 50)), path, fileName, []⟩,
       ⟨trim (joinNl (ls.drop 100)), path, fileName, []⟩] := by
  have hA : ∀ l ∈ ls.take 50, nonHeading l :=
    fun l hl => hnh l (List.take_subset _ _ hl)
  have hB : ∀ l ∈ (ls.drop 50).take 50, nonHeading l :=
    fun l hl => hnh l (List.drop_subset _ _ (List.take_subset _ _ hl))
  have hC : ∀ l ∈ ls.drop 100, nonHeading l :=
    fun l hl => hnh l (List.drop_subset _ _ hl)
  have hlA : (ls.take 50).length = 50 := by simp [List.length_take, hlen]
  have hlB : ((ls.drop 50).take 50).length = 50 := by
    simp [List.length_take, List.length_drop, hlen]
  have hlC : (ls.drop 100).length = 20 := by simp [List.length_drop, hlen]
  have hdecomp : ls = ls.take 50 ++ ((ls.drop 50).take 50 ++ ls.drop 100) := by
    conv_lhs => rw [← List.take_append_drop 50 ls]
    congr 1
    conv_lhs => rw [← List.take_append_drop 50 (ls.drop 50)]
    congr 1
    rw [List.drop_drop]
  have e1 : List.foldl (chunkStep path fileName) ⟨[], [], [], [], 0⟩ (ls.take 50) =
      ⟨[mkChunk path fileName [] [] (joinNl (ls.take 50))], [], [], [], 0⟩ := by
    rw [foldl_nonheading_fill path fileName _ _ hA
      (List.length_pos.mp (by rw [hlA]; omega)) (by rw [hlA])]
    simp
  have e2 : List.foldl (chunkStep path fileName)
      ⟨[mkChunk path fileName [] [] (joinNl (ls.take 50))], [], [], [], 0⟩
      ((ls.drop 50).take 50) =
      ⟨[mkChunk path fileName [] [] (joinNl (ls.take 50)),
        mkChunk path fileName [] [] (joinNl ((ls.drop 50).take 50))], [], [], [], 0⟩ := by
    rw [foldl_nonheading_fill path fileName _ _ hB
      (List.length_pos.mp (by rw [hlB]; omega)) (by rw [hlB])]
    simp
  have e3 : List.foldl (chunkStep path fileName)
      ⟨[mkChunk path fileName [] [] (joinNl (ls.take 50)),
        mkChunk path fileName [] [] (joinNl ((ls.drop 50).take 50))], [], [], [], 0⟩
      (ls.drop 100) =
      ⟨[mkChunk path fileName [] [] (joinNl (ls.take 50)),
        mkChunk path fileName [] [] (joinNl ((ls.drop 50).take 50))],
       joinNl (ls.drop 100), [], [], 20⟩ := by
    rw [foldl_nonheading_under path fileName _ _ hC (by simp [hlC])]
    simp [hlC]
  have hCne : trim (joinNl (ls.drop 100)) ≠ [] := by
    intro h0
    rw [h0] at h3
    simp at h3
  unfold splitMarkdownIntoChunks splitMarkdownRaw
  rw [hsplit]
  conv_lhs => rw [hdecomp]
  rw [List.foldl_append, List.foldl_append, e1, e2, e3]
  unfold finalizeChunks
  rw [if_pos (by exact hCne)]
  simp [mkChunk, List.filter_cons, h1, h2, h3]

/-- C6, witness: the concrete 120-line headingless document `c6doc` (lines
`x0` … `x119`) produces exactly the three 50/50/20 chunks. -/
theorem size_ceiling_witness :
    splitMarkdownIntoChunks c6doc ['p'] ['n'] =
      [⟨trim (joinNl (c6lines.take 50)), ['p'], ['n'], []⟩,
       ⟨trim (joinNl ((c6lines.drop 50).take 50)), ['p'], ['n'], []⟩,
       ⟨trim (joinNl (c6lines.drop 100)), ['p'], ['n'], []⟩] :=
  size_ceiling_three_chunks c6doc ['p'] ['n'] c6lines (by decide) (by decide)
    (by decide) (by decide) (by decide) (by decide) (by decide)

/-- Membership in a score-descending insertion. -/
theorem mem_insertByScoreDesc {x a : ScoredChunk} :
    ∀ l, a ∈ insertByScoreDesc x l ↔ a = x ∨ a ∈ l := by
  intro l
  induction l with
  | nil => simp [insertByScoreDesc]
  | cons y ys ih =>
    simp only [insertByScoreDesc]
    split
    · simp only [List.mem_cons, ih]
      tauto
    · simp only [List.mem_cons]

/-- Insertion preserves the non-increasing-score invariant. -/
theorem pairwise_insertByScoreDesc {x : ScoredChunk} :
    ∀ {l}, l.Pairwise (fun a b => b.score ≤ a.score) →
      (insertByScoreDesc x l).Pairwise (fun a b => b.score ≤ a.score) := by
  intro l
  induction l with
  | nil => intro; simp [insertByScoreDesc]
  | cons y ys ih =>
    intro hp
    rw [List.pairwise_cons] at hp
    obtain ⟨hy, hys⟩ := hp
    simp only [insertByScoreDesc]
    split
    · next hlt =>
      rw [List.pairwise_cons]
      refine ⟨?_, ih hys⟩
      intro z hz
      rcases (mem_insertByScoreDesc ys).mp hz with rfl | hz'
      · exact Nat.le_of_lt hlt
      · exact hy z hz'
    · next hge =>
      rw [List.pairwise_cons]
      refine ⟨?_, List.pairwise_cons.mpr ⟨hy, hys⟩⟩
      intro z hz
      rcases List.mem_cons.mp hz with rfl | hz'
      · exact Nat.le_of_not_lt hge
      · exact Nat.le_trans (hy z hz') (Nat.le_of_not_lt hge)

/-- The sort produces non-increasing scores. -/
theorem pairwise_sortByScoreDesc :
    ∀ l, (sortByScoreDesc l).Pairwise (fun a b => b.score ≤ a.score) := by
  intro l
  induction l with
  | nil => simp [sortByScoreDesc]
  | cons x xs ih =>
    simp only [sortByScoreDesc]
    exact pairwise_insertByScoreDesc ih

/-- The sort neither adds nor removes elements. -/
theorem mem_sortByScoreDesc {a : ScoredChunk} :
    ∀ {l}, a ∈ sortByScoreDesc l ↔ a ∈ l := by
  intro l
  induction l with
  | nil => simp [sortByScoreDesc]
  | cons x xs ih =>
    simp only [sortByScoreDesc]
    rw [mem_insertByScoreDesc]
    simp [ih]

/-- Stability of the insertion, phrased through score-level filters: the
elements of any fixed score are exactly those of the input, in input
order. -/
theorem filter_insertByScoreDesc (x : ScoredChunk) (s : Nat) :
    ∀ l, (insertByScoreDesc x l).filter (fun r => r.score == s) =
      if x.score = s then x :: l.filter (fun r => r.score == s)
      else l.filter (fun r => r.score == s) := by
  intro l
  induction l with
  | nil =>
    by_cases hx : x.score = s
    · simp [insertByScoreDesc, List.filter_cons, hx]
    · simp [insertByScoreDesc, List.filter_cons, hx]
  | cons y ys ih =>
    simp only [insertByScoreDesc]
    split
    · next hlt =>
      rw [List.filter_cons, ih]
      by_cases hy : y.score = s
      · have hx : ¬x.score = s := by omega
        simp [hy, hx, List.filter_cons]
      · simp [hy, List.filter_cons]
    · next hge =>
      by_cases hx : x.score = s
      · simp [List.filter_cons, hx]
      · simp [List.filter_cons, hx]

/-- Stability of the whole sort: filtering the sorted list at any score
value gives the input's elements of that score in input order. -/
theorem filter_sortByScoreDesc (s : Nat) :
    ∀ l, (sortByScoreDesc l).filter (fun r => r.score == s) =
      l.filter (fun r => r.score == s) := by
  intro l
  induction l with
  | nil => rfl
  | cons x xs ih =>
    simp only [sortByScoreDesc]
    rw [filter_insertByScoreDesc, ih, List.filter_cons]
    by_cases hx : x.score = s
    · simp [hx]
    · simp [hx]

/-- Scoring a collection preserves it: the scored list projects back onto
the documents in their insertion order. -/
theorem mapOption_scored_docs (q : Str) :
    ∀ (docs : List DocumentChunk) (scored : List ScoredChunk),
      mapOption (fun d => (calculateRelevanceScore d q).map (ScoredChunk.mk d)) docs =
        some scored →
      scored.map ScoredChunk.doc = docs := by
  intro docs
  induction docs with
  | nil =>
    intro scored h
    simp only [mapOption, Option.some.injEq] at h
    subst h
    rfl
  | cons d ds ih =>
    intro scored h
    simp only [mapOption] at h
    cases hd : (calculateRelevanceScore d q).map (ScoredChunk.mk d) with
    | none => rw [hd] at h; simp at h
    | some b =>
      cases hrest : mapOption
          (fun d => (calculateRelevanceScore d q).map (ScoredChunk.mk d)) ds with
      | none => rw [hd, hrest] at h; simp at h
      | some bs =>
        rw [hd, hrest] at h
        simp only [Option.some.injEq] at h
        subst h
        obtain ⟨n, -, hb⟩ := Option.map_eq_some'.mp hd
        rw [List.map_cons, ih bs hrest, ← hb]

/-- C7: whenever the search completes (the scorer throws on no chunk), the
result has at most `maxResults` entries, every entry scores strictly
positive, scores are non-increasing, and entries of equal score appear in
the insertion order of the collection (the filtered result at each score
level is a prefix of the scored input's elements of that score). -/
theorem search_ranking_properties (docs : List DocumentChunk) (query : Str)
    (maxResults : Nat) (scored res : List ScoredChunk)
    (hscored : mapOption
      (fun d => (calculateRelevanceScore d (toLower query)).map (ScoredChunk.mk d)) docs =
      some scored)
    (hres : searchScored docs query maxResults = some res) :
    res.length ≤ maxResults ∧
    (∀ r ∈ res, 0 < r.score) ∧
    res.Pairwise (fun a b => b.score ≤ a.score) ∧
    scored.map ScoredChunk.doc = docs ∧
    (∀ s, ∃ t, res.filter (fun r => r.score == s) ++ t =
      (scored.filter (fun r => 0 < r.score)).filter (fun r => r.score == s)) := by
  unfold searchScored at hres
  rw [hscored] at hres
  simp only [Option.map_some', Option.some.injEq] at hres
  subst hres
  refine ⟨?_, ?_, ?_, mapOption_scored_docs (toLower query) docs scored hscored, ?_⟩
  · rw [List.length_take]
    exact Nat.min_le_left _ _
  · intro r hr
    have hr1 : r ∈ sortByScoreDesc (scored.filter (fun r => 0 < r.score)) :=
      List.mem_of_mem_take hr
    have hr2 := mem_sortByScoreDesc.mp hr1
    exact of_decide_eq_true (List.mem_filter.mp hr2).2
  · exact List.Pairwise.sublist (List.take_sublist _ _) (pairwise_sortByScoreDesc _)
  · intro s
    refine ⟨(List.drop maxResults
      (sortByScoreDesc (scored.filter (fun r => 0 < r.score)))).filter
        (fun r => r.score == s), ?_⟩
    rw [← List.filter_append, List.take_append_drop, filter_sortByScoreDesc]

/-- C7, witness: on the four-chunk collection and the query `"doc"` the
search returns three ranked entries; the bound and the insertion-order
projection hold at this instance. -/
theorem search_ranking_witness :
    ([⟨c7T, 13⟩, ⟨c7A, 2⟩, ⟨c7B, 2⟩] : List ScoredChunk).length ≤ 5 ∧
    ([⟨c7A, 2⟩, ⟨c7Z, 0⟩, ⟨c7T, 13⟩, ⟨c7B, 2⟩] : List ScoredChunk).map ScoredChunk.doc =
      c7docs :=
  ⟨(search_ranking_properties c7docs docQuery 5
      [⟨c7A, 2⟩, ⟨c7Z, 0⟩, ⟨c7T, 13⟩, ⟨c7B, 2⟩] [⟨c7T, 13⟩, ⟨c7A, 2⟩, ⟨c7B, 2⟩]
      (by decide) (by decide)).1,
   (search_ranking_properties c7docs docQuery 5
      [⟨c7A, 2⟩, ⟨c7Z, 0⟩, ⟨c7T, 13⟩, ⟨c7B, 2⟩] [⟨c7T, 13⟩, ⟨c7A, 2⟩, ⟨c7B, 2⟩]
      (by decide) (by decide)).2.2.2.1⟩

/-- C8, counterexample: on the lexical variant, a search issued while
uninitialized whose implicit load yields zero chunks (empty repository)
returns a successful empty result, not the "cannot initialize" failure —
`initializeKnowledgeBase` reports success even with zero chunks. -/
theorem lexical_empty_load_search_succeeds :
    searchKnowledgeBase [] setupQuery 3 ⟨false, []⟩ =
      (⟨true, []⟩, KBSearchOutcome.ok [] 0 0) ∧
    (searchKnowledgeBase [] setupQuery 3 ⟨false, []⟩).2 ≠ KBSearchOutcome.cannotInit := by
  exact ⟨by decide, by decide⟩

/-- C8, amended: searching while uninitialized does trigger an implicit
load on both variants, but only the vector-backed variant turns a
zero-chunk load into the explicit "cannot initialize" failure (its
initializer fails on an empty file list or on zero produced chunks).  The
lexical variant's implicit load succeeds even with zero chunks, so its
search returns success with an empty result list. -/
theorem implicit_init_amended :
    (∀ (repo : List RawDoc) (query : Str) (maxResults : Nat) (st : RAGState),
      st.isInitialized = false → loadDocuments repo = [] →
      searchKnowledgeBase repo query maxResults st =
        (⟨true, []⟩, KBSearchOutcome.ok [] 0 0)) ∧
    (∀ (mchunk : RawDoc → List VecMeta) (files : List RawDoc)
        (vq : List VecMeta → Str → Nat → List VecMeta) (query : Str) (maxResults : Nat),
      files.flatMap mchunk = [] →
      vectorSearch mchunk files vq query maxResults ⟨false, []⟩ =
        (⟨false, []⟩, VecSearchOutcome.cannotInit)) := by
  constructor
  · intro repo query maxResults st hinit hload
    simp only [searchKnowledgeBase, initKnowledgeBase, hinit, hload, Bool.false_and,
      Bool.not_false, Bool.true_or, if_true, if_false]
    simp [searchScored, mapOption, sortByScoreDesc]
  · intro mchunk files vq query maxResults hchunks
    cases files with
    | nil => simp [vectorSearch, initVectorStore, VecInitOutcome.success]
    | cons f fs =>
      simp [vectorSearch, initVectorStore, hchunks, VecInitOutcome.success]

/-- C8, witness: the lexical variant on an empty repository returns the
successful empty search result; the vector variant whose chunker produces
nothing for the single repository file fails with the explicit error. -/
theorem implicit_init_amended_witness :
    searchKnowledgeBase [] setupQuery 3 ⟨false, []⟩ =
      (⟨true, []⟩, KBSearchOutcome.ok [] 0 0) ∧
    vectorSearch (fun _ => []) [⟨introName, introPath, introContent⟩]
        (fun _ _ _ => []) setupQuery 3 ⟨false, []⟩ =
      (⟨false, []⟩, VecSearchOutcome.cannotInit) :=
  ⟨implicit_init_amended.1 [] setupQuery 3 ⟨false, []⟩ rfl rfl,
   implicit_init_amended.2 (fun _ => []) [⟨introName, introPath, introContent⟩]
     (fun _ _ _ => []) setupQuery 3 rfl⟩

/-- C9: `clearVectorStore` only resets the local `isInitialized` flag; it
reports success and leaves the contents of the backing vector store
untouched — no stored record is deleted. -/
theorem clear_resets_flag_only (st : VecState) :
    (clearVectorStore st).1.isInitialized = false ∧
    (clearVectorStore st).1.store = st.store ∧
    (clearVectorStore st).2.success = true :=
  ⟨rfl, rfl, rfl⟩

end KB
